import Mathlib

/-!
Verification of the telegram-intel scoring and evaluation pipeline.

The repository ships the Python test-suites and a thin FastAPI proxy; the
Node.js backend that implements the pipeline itself is not part of the
sources.  Every definition below is therefore a shallow embedding modelled
from the specification (spec.md), with the test-suites used to pin the
observable shapes (field names, caps, error strings).  Scores are rationals;
timestamps are natural numbers (seconds).
-/

namespace TelegramIntel

/-- Clamp a rational into the interval `[lo, hi]`. -/
def clamp (lo hi x : ℚ) : ℚ := max lo (min hi x)

theorem le_clamp (lo hi x : ℚ) : lo ≤ clamp lo hi x := le_max_left _ _

theorem clamp_le {lo hi : ℚ} (x : ℚ) (h : lo ≤ hi) : clamp lo hi x ≤ hi :=
  max_le h (min_le_left _ _)

/-- Modelled from the spec: the lexical origin of a token mention
(`source∈{cashtag,hashtag,pair,plain}` in the TokenMention data model). -/
inductive Source
  | cashtag
  | hashtag
  | pair
  | plain
deriving DecidableEq

/-- Modelled from the spec: the TokenMention record of the Mention Store
(the backend collection is not in the sources).  `mentionedAt` is a Unix
timestamp in seconds; `r24h`/`r7d`/`max7d` are the forward returns written
by the Return Evaluator. -/
structure TokenMention where
  channel : String
  token : String
  postId : Nat
  mentionedAt : Nat
  source : Source
  confidence : ℚ
  evaluated : Bool
  r24h : Option ℚ
  r7d : Option ℚ
  max7d : Option ℚ
deriving DecidableEq

/-- Modelled from the spec: governance status
`{NORMAL, BLOCKLIST, ALLOWLIST}`. -/
inductive GovStatus
  | NORMAL
  | BLOCKLIST
  | ALLOWLIST
deriving DecidableEq

/-- Modelled from the spec: discrete tier labels `{S,A,B,C,D}`. -/
inductive Tier
  | S
  | A
  | B
  | C
  | D
deriving DecidableEq

/-- Modelled from the spec: the GovernanceOverride record (at most one
active per channel, last-write-wins). -/
structure GovernanceOverride where
  channel : String
  status : GovStatus
  forcedTier : Option Tier
  reason : String
deriving DecidableEq

/-- Modelled from the spec: the component scores the Intel Ranker reads
(alpha score from 4.5, network alpha from 4.6, fraud risk from 4.7). -/
structure IntelComponents where
  alphaScore : ℚ
  networkAlphaScore : ℚ
  fraudRisk : ℚ
deriving DecidableEq

/-- Modelled from the spec: the `explain` block of an IntelScore
(`{networkAlphaEffective, credGate, ...}`). -/
structure IntelExplain where
  credGate : ℚ
  networkAlphaEffective : ℚ
deriving DecidableEq

/-- Modelled from the spec: the IntelScore document. -/
structure IntelScore where
  channel : String
  intelScore : ℚ
  tier : Tier
  components : IntelComponents
  explain : IntelExplain
deriving DecidableEq

/-- Modelled from the spec: the credibility gate `credGate = f(fraudRisk)`
in `[0,1]`, lower credibility (higher fraud risk) giving a lower gate. -/
def credGateOf (fraudRisk : ℚ) : ℚ := clamp 0 1 (1 - fraudRisk)

/-- Modelled from the spec: tier from fixed intel-score cut points. -/
def tierOf (s : ℚ) : Tier :=
  if 80 ≤ s then Tier.S
  else if 60 ≤ s then Tier.A
  else if 40 ≤ s then Tier.B
  else if 20 ≤ s then Tier.C
  else Tier.D

/-- Weight of the alpha score in the intel composite (the spec leaves the
constants to configuration; these are the documented choices). -/
def wAlpha : ℚ := 1/2

/-- Weight of the credibility-gated network alpha in the intel composite. -/
def wNet : ℚ := 3/10

/-- Weight of the credibility bonus/penalty term in the intel composite. -/
def wCred : ℚ := 1/5

/-- The governance status in force for an optional override record
(`NORMAL` is the default when no override is active). -/
def govStatusOf (ov : Option GovernanceOverride) : GovStatus :=
  match ov with
  | some o => o.status
  | none => GovStatus.NORMAL

/-- The forced tier of an optional override record, when present. -/
def forcedTierOf (ov : Option GovernanceOverride) : Option Tier :=
  match ov with
  | some o => o.forcedTier
  | none => none

/-- The credibility gate in force: `ALLOWLIST` skips gating
(`credGate = 1`), otherwise the gate is derived from the fraud risk. -/
def intelGate (c : IntelComponents) (ov : Option GovernanceOverride) : ℚ :=
  if govStatusOf ov = GovStatus.ALLOWLIST then 1 else credGateOf c.fraudRisk

/-- The composite intel score before governance short-circuits: a weighted
sum of the alpha score, the credibility-gated network alpha, and a
credibility bonus/penalty term, clamped into `[0,100]`. -/
def intelRaw (c : IntelComponents) (ov : Option GovernanceOverride) : ℚ :=
  clamp 0 100
    (wAlpha * c.alphaScore + wNet * (c.networkAlphaScore * intelGate c ov)
      + wCred * (100 * (1 - c.fraudRisk)))

/-- Modelled from the spec: `computeIntel` (section 4.8), the governance
state machine evaluated in priority order: `BLOCKLIST` short-circuits to
`intelScore = 0`; `ALLOWLIST` skips credibility gating (`credGate = 1`);
`forcedTier` overrides the tier label only; otherwise the full computation:
`networkAlphaEffective = networkAlphaScore * credGate` and a weighted sum
clamped into `[0,100]`. -/
def computeIntel (channel : String) (c : IntelComponents)
    (ov : Option GovernanceOverride) : IntelScore :=
  if govStatusOf ov = GovStatus.BLOCKLIST then
    { channel := channel
      intelScore := 0
      tier := (forcedTierOf ov).getD (tierOf 0)
      components := c
      explain := { credGate := 0, networkAlphaEffective := 0 } }
  else
    { channel := channel
      intelScore := intelRaw c ov
      tier := (forcedTierOf ov).getD (tierOf (intelRaw c ov))
      components := c
      explain :=
        { credGate := intelGate c ov
          networkAlphaEffective := c.networkAlphaScore * intelGate c ov } }

theorem credGateOf_nonneg (f : ℚ) : 0 ≤ credGateOf f := le_clamp 0 1 _

theorem credGateOf_le_one (f : ℚ) : credGateOf f ≤ 1 := clamp_le _ (by norm_num)

/-- Claim C1: a channel whose active governance override has status
`BLOCKLIST` gets `intelScore = 0` from `computeIntel`, whatever its
component scores are. -/
theorem blocklist_intel_zero (ch : String) (c : IntelComponents)
    (o : GovernanceOverride) (h : o.status = GovStatus.BLOCKLIST) :
    (computeIntel ch c (some o)).intelScore = 0 := by
  simp [computeIntel, govStatusOf, h]

/-- Witness for Claim C1 at a concrete blocked channel with non-zero
component scores. -/
theorem blocklist_intel_zero_witness :
    (GovernanceOverride.mk "beta_channel" GovStatus.BLOCKLIST none "test").status
        = GovStatus.BLOCKLIST ∧
    (computeIntel "beta_channel" (IntelComponents.mk 77 88 0)
        (some (GovernanceOverride.mk "beta_channel" GovStatus.BLOCKLIST none "test"))).intelScore
        = 0 :=
  ⟨rfl, blocklist_intel_zero "beta_channel" (IntelComponents.mk 77 88 0)
      (GovernanceOverride.mk "beta_channel" GovStatus.BLOCKLIST none "test") rfl⟩

theorem intelGate_nonneg (c : IntelComponents) (ov : Option GovernanceOverride) :
    0 ≤ intelGate c ov := by
  unfold intelGate
  split
  · norm_num
  · exact credGateOf_nonneg _

theorem intelGate_le_one (c : IntelComponents) (ov : Option GovernanceOverride) :
    intelGate c ov ≤ 1 := by
  unfold intelGate
  split
  · norm_num
  · exact credGateOf_le_one _

theorem computeIntel_explain_of_not_blocklist (ch : String) (c : IntelComponents)
    (ov : Option GovernanceOverride) (h : govStatusOf ov ≠ GovStatus.BLOCKLIST) :
    (computeIntel ch c ov).explain
      = { credGate := intelGate c ov
          networkAlphaEffective := c.networkAlphaScore * intelGate c ov } := by
  unfold computeIntel
  rw [if_neg h]

/-- Claim C4: under `NORMAL` or `ALLOWLIST` governance the intel
computation reports `credGate ∈ [0,1]` and
`networkAlphaEffective = networkAlphaScore * credGate`, hence
`networkAlphaEffective ≤ networkAlphaScore` (the network alpha score being
non-negative, as every engine output is). -/
theorem credgate_effective_le (ch : String) (c : IntelComponents)
    (ov : Option GovernanceOverride)
    (hst : govStatusOf ov = GovStatus.NORMAL ∨ govStatusOf ov = GovStatus.ALLOWLIST)
    (hn : 0 ≤ c.networkAlphaScore) :
    0 ≤ (computeIntel ch c ov).explain.credGate ∧
    (computeIntel ch c ov).explain.credGate ≤ 1 ∧
    (computeIntel ch c ov).explain.networkAlphaEffective
      = c.networkAlphaScore * (computeIntel ch c ov).explain.credGate ∧
    (computeIntel ch c ov).explain.networkAlphaEffective ≤ c.networkAlphaScore := by
  have hnb : govStatusOf ov ≠ GovStatus.BLOCKLIST := by
    rcases hst with h | h <;> rw [h] <;> intro hc <;> exact GovStatus.noConfusion hc
  rw [computeIntel_explain_of_not_blocklist ch c ov hnb]
  refine ⟨intelGate_nonneg c ov, intelGate_le_one c ov, rfl, ?_⟩
  exact mul_le_of_le_one_right hn (intelGate_le_one c ov)

/-- Witness for Claim C4 at a concrete channel under NORMAL governance. -/
theorem credgate_effective_le_witness :
    (govStatusOf none = GovStatus.NORMAL ∨ govStatusOf none = GovStatus.ALLOWLIST) ∧
    (0 ≤ (IntelComponents.mk 50 60 (3/10)).networkAlphaScore) ∧
    ((computeIntel "alpha_channel" (IntelComponents.mk 50 60 (3/10)) none).explain.networkAlphaEffective
      ≤ (IntelComponents.mk 50 60 (3/10)).networkAlphaScore) :=
  ⟨Or.inl rfl, by norm_num,
    (credgate_effective_le "alpha_channel" (IntelComponents.mk 50 60 (3/10)) none
      (Or.inl rfl) (by norm_num)).2.2.2⟩

/-- Seconds per day (timestamps are Unix seconds, windows are in days). -/
def secondsPerDay : Nat := 86400

/-- A mention timestamp falls inside the `days`-day lookback window ending
at `now`. -/
def inWindow (now days : Nat) (m : TokenMention) : Bool :=
  decide (m.mentionedAt ≤ now) && decide (now ≤ m.mentionedAt + days * secondsPerDay)

/-- Modelled from the spec: the success ("hit") threshold on the 7-day
return (the constant is configuration; 10% is the documented choice). -/
def hitThreshold : ℚ := 1/10

/-- A mention counts as a hit when its 7-day return is at or above the hit
threshold. -/
def mentionIsHit (m : TokenMention) : Bool :=
  match m.r7d with
  | some r => decide (hitThreshold ≤ r)
  | none => false

/-- Mean of a list of rationals, `0` for the empty list. -/
def avgOf (xs : List ℚ) : ℚ := if xs.length = 0 then 0 else xs.sum / xs.length

/-- The token cohort of a mention: all stored mentions of the same token
inside the window (section 4.6). -/
def cohortOf (store : List TokenMention) (now days : Nat) (m : TokenMention) :
    List TokenMention :=
  store.filter (fun x => x.token == m.token && inWindow now days x)

/-- The 1-based early rank of a mention inside its token cohort. -/
def earlyRankIn (store : List TokenMention) (now days : Nat) (m : TokenMention) : Nat :=
  ((cohortOf store now days m).filter
    (fun x => decide (x.mentionedAt < m.mentionedAt))).length + 1

/-- Cohort percentile, `1 - (earlyRank - 1)/cohortSize` (first mover near 1). -/
def percentileOf (store : List TokenMention) (now days : Nat) (m : TokenMention) : ℚ :=
  if (cohortOf store now days m).length = 0 then 0
  else 1 - ((earlyRankIn store now days m : ℚ) - 1) / ((cohortOf store now days m).length : ℚ)

/-- Sort key used to pick the best mention: the 7-day return, with
unevaluated mentions pushed to the bottom. -/
def retKey (m : TokenMention) : ℚ := m.r7d.getD (-(10^9))

/-- The single mention with the highest 7-day return, `none` on empty. -/
def bestMentionOf : List TokenMention → Option TokenMention
  | [] => none
  | m :: rest => some (rest.foldl (fun b x => if retKey b < retKey x then x else b) m)

/-- Modelled from the spec: the ChannelAlphaScore document (section 3),
one logical row per (channel, windowDays). -/
structure ChannelAlphaScore where
  channel : String
  windowDays : Nat
  successRate : ℚ
  avgReturn7d : ℚ
  earlynessFactor : ℚ
  consistency : ℚ
  alphaScore : ℚ
  totalMentions : Nat
  evaluatedMentions : Nat
  bestMention : Option TokenMention
deriving DecidableEq

/-- Modelled from the spec: `scoreChannel` (section 4.5).  Over the
channel's evaluated mentions in the window it computes the success rate,
the mean 7-day return, the cohort-based earlyness factor and a
variance-penalizing consistency; `alphaScore` is a weighted combination of
the normalized sub-metrics scaled into `[0,100]` and clamped.  A channel
with zero evaluated mentions yields `alphaScore = 0` with zeroed fields. -/
def scoreChannel (store : List TokenMention) (channel : String)
    (windowDays now : Nat) : ChannelAlphaScore :=
  let ms := store.filter (fun m => m.channel == channel && inWindow now windowDays m)
  let evs := ms.filter (fun m => m.evaluated)
  if evs.length = 0 then
    { channel := channel, windowDays := windowDays, successRate := 0
      avgReturn7d := 0, earlynessFactor := 0, consistency := 0, alphaScore := 0
      totalMentions := ms.length, evaluatedMentions := 0, bestMention := none }
  else
    let rets := evs.filterMap (fun m => m.r7d)
    let successRate := ((evs.filter mentionIsHit).length : ℚ) / (evs.length : ℚ)
    let avg7 := avgOf rets
    let earlyness := avgOf (evs.map (percentileOf store now windowDays))
    let variance := avgOf (rets.map (fun r => (r - avg7) ^ 2))
    let consistency := 1 / (1 + variance)
    let normReturn := clamp 0 1 (avg7 / 2)
    let raw := 40 * successRate + 25 * normReturn + 20 * earlyness + 15 * consistency
    { channel := channel, windowDays := windowDays, successRate := successRate
      avgReturn7d := avg7, earlynessFactor := earlyness, consistency := consistency
      alphaScore := clamp 0 100 raw
      totalMentions := ms.length, evaluatedMentions := evs.length
      bestMention := bestMentionOf evs }

theorem scoreChannel_alpha_nonneg (store : List TokenMention) (ch : String)
    (w now : Nat) : 0 ≤ (scoreChannel store ch w now).alphaScore := by
  unfold scoreChannel
  dsimp only
  split
  · exact le_refl 0
  · exact le_clamp 0 100 _

theorem scoreChannel_alpha_le (store : List TokenMention) (ch : String)
    (w now : Nat) : (scoreChannel store ch w now).alphaScore ≤ 100 := by
  unfold scoreChannel
  dsimp only
  split
  · norm_num
  · exact clamp_le _ (by norm_num)

theorem computeIntel_nonneg (ch : String) (c : IntelComponents)
    (ov : Option GovernanceOverride) : 0 ≤ (computeIntel ch c ov).intelScore := by
  unfold computeIntel
  split
  · exact le_refl 0
  · exact le_clamp 0 100 _

theorem computeIntel_le (ch : String) (c : IntelComponents)
    (ov : Option GovernanceOverride) : (computeIntel ch c ov).intelScore ≤ 100 := by
  unfold computeIntel
  split
  · norm_num
  · exact clamp_le _ (by norm_num)

/-- Claim C5: every computed alpha score and every computed intel score
lies in the closed interval `[0, 100]`, for every channel, mention store,
window and governance state. -/
theorem alpha_intel_scores_in_range (store : List TokenMention) (ch : String)
    (w now : Nat) (c : IntelComponents) (ov : Option GovernanceOverride) :
    0 ≤ (scoreChannel store ch w now).alphaScore ∧
    (scoreChannel store ch w now).alphaScore ≤ 100 ∧
    0 ≤ (computeIntel ch c ov).intelScore ∧
    (computeIntel ch c ov).intelScore ≤ 100 :=
  ⟨scoreChannel_alpha_nonneg store ch w now, scoreChannel_alpha_le store ch w now,
    computeIntel_nonneg ch c ov, computeIntel_le ch c ov⟩

/-- Modelled from the spec: a candidate token mention produced by the
Token Extractor from one post's text (section 4.1). -/
structure Candidate where
  token : String
  source : Source
  confidence : ℚ
deriving DecidableEq

/-- Modelled from the spec: base confidence per lexical pattern — cashtag
at least 0.80, hashtag at least 0.60, pair/plain moderate. -/
def baseConfidence : Source → ℚ
  | Source.cashtag => 85/100
  | Source.hashtag => 65/100
  | Source.pair => 7/10
  | Source.plain => 7/10

/-- Word-separating characters for the text scan. -/
def isSpaceChar (c : Char) : Bool :=
  c = ' ' || c = '\n' || c = '\t' || c = '\r' || c = ','

/-- Split a character stream into whitespace-separated words
(`acc` holds the current word reversed). -/
def splitWordsAux : List Char → List Char → List (List Char)
  | [], acc => if acc.isEmpty then [] else [acc.reverse]
  | c :: cs, acc =>
    if isSpaceChar c then
      if acc.isEmpty then splitWordsAux cs [] else acc.reverse :: splitWordsAux cs []
    else splitWordsAux cs (c :: acc)

def splitWords (cs : List Char) : List (List Char) := splitWordsAux cs []

/-- Whether the needle occurs at the start of the second list. -/
def seqMatchesAt : List Char → List Char → Bool
  | [], _ => true
  | _ :: _, [] => false
  | a :: as, b :: bs => a == b && seqMatchesAt as bs

/-- Whether the needle occurs somewhere in the haystack. -/
def containsSeq (needle : List Char) : List Char → Bool
  | [] => seqMatchesAt needle []
  | c :: cs => seqMatchesAt needle (c :: cs) || containsSeq needle cs

/-- Modelled from the spec: context keywords whose presence boosts a
candidate's confidence (e.g. "airdrop", "launch"). -/
def contextKeywords : List (List Char) :=
  ["airdrop".data, "launch".data, "listing".data, "presale".data]

def lowerChars (cs : List Char) : List Char := cs.map Char.toLower

/-- Modelled from the spec: the additive context-keyword boost applied on
top of a pattern's base confidence. -/
def boostOf (text : String) : ℚ :=
  if contextKeywords.any (fun k => containsSeq k (lowerChars text.data)) then 1/20
  else 0

/-- Characters allowed inside a token symbol. -/
def tokenChar (c : Char) : Bool := c.isAlpha || c.isDigit

def validToken (cs : List Char) : Bool := !cs.isEmpty && cs.all tokenChar

def upperChars (cs : List Char) : List Char := cs.map Char.toUpper

/-- Build a candidate: token symbols are case-normalized to uppercase and
the boosted confidence is capped at 1. -/
def mkCandidate (s : Source) (chars : List Char) (boost : ℚ) : Candidate :=
  { token := String.mk (upperChars chars)
    source := s
    confidence := min 1 (baseConfidence s + boost) }

/-- Quote assets recognized in the `TOKEN/QUOTE` pair pattern. -/
def quoteAssets : List (List Char) :=
  ["USDT".data, "USDC".data, "USD".data, "BUSD".data]

/-- Split a word at its first slash, when it has one. -/
def splitAtSlash : List Char → Option (List Char × List Char)
  | [] => none
  | c :: cs =>
    if c = '/' then some ([], cs)
    else
      match splitAtSlash cs with
      | some (a, b) => some (c :: a, b)
      | none => none

/-- Punctuation stripped from the end of a word before classification. -/
def trailingPunct (c : Char) : Bool :=
  c = '.' || c = '!' || c = '?' || c = ':' || c = ';' || c = ')'

def trimWord (w : List Char) : List Char := (w.reverse.dropWhile trailingPunct).reverse

/-- Modelled from the spec: classify one word of a post as a candidate
mention — `$TOKEN` cashtag, `#TOKEN` hashtag, or `TOKEN/QUOTE` pair
(reported with `source = plain`). -/
def wordCandidate (boost : ℚ) (w0 : List Char) : Option Candidate :=
  match trimWord w0 with
  | '$' :: rest =>
    if validToken rest then some (mkCandidate Source.cashtag rest boost) else none
  | '#' :: rest =>
    if validToken rest then some (mkCandidate Source.hashtag rest boost) else none
  | w =>
    match splitAtSlash w with
    | some (base, quote) =>
      if validToken base && quoteAssets.contains (upperChars quote) then
        some (mkCandidate Source.plain base boost)
      else none
    | none => none

/-- Merge one candidate into the accumulator: an existing entry for the
same token is replaced when the new instance has higher confidence, a new
token is appended. -/
def insertBest (acc : List Candidate) (c : Candidate) : List Candidate :=
  if acc.any (fun x => x.token == c.token) then
    acc.map (fun x =>
      if x.token = c.token ∧ x.confidence < c.confidence then c else x)
  else acc ++ [c]

/-- Collapse duplicates of the same token to the highest-confidence
instance, keeping first-occurrence order of tokens. -/
def dedupBest (l : List Candidate) : List Candidate := l.foldl insertBest []

/-- Modelled from the spec: the Token Extractor (section 4.1) — a pure
function from a post's text to candidate mentions, with per-pattern base
confidence, the context-keyword boost capped at 1.0, and same-token
duplicates collapsed to the highest-confidence instance. -/
def extractTokens (text : String) : List Candidate :=
  dedupBest ((splitWords text.data).filterMap (wordCandidate (boostOf text)))

theorem boostOf_nonneg (text : String) : 0 ≤ boostOf text := by
  unfold boostOf
  split
  · norm_num
  · exact le_refl 0

theorem baseConfidence_le_one (s : Source) : baseConfidence s ≤ 1 := by
  cases s <;> norm_num [baseConfidence]

theorem mem_insertBest {y : Candidate} {acc : List Candidate} {c : Candidate}
    (h : y ∈ insertBest acc c) : y ∈ acc ∨ y = c := by
  unfold insertBest at h
  split at h
  · rcases List.mem_map.mp h with ⟨x, hx, hxy⟩
    rcases hxy with hxy
    split at hxy
    · exact Or.inr hxy.symm
    · exact Or.inl (hxy ▸ hx)
  · rcases List.mem_append.mp h with h' | h'
    · exact Or.inl h'
    · exact Or.inr (List.mem_singleton.mp h')

theorem mem_foldl_insertBest :
    ∀ (l acc : List Candidate) (y : Candidate),
      y ∈ l.foldl insertBest acc → y ∈ acc ∨ y ∈ l := by
  intro l
  induction l with
  | nil => intro acc y h; exact Or.inl h
  | cons x xs ih =>
    intro acc y h
    rcases ih (insertBest acc x) y h with h' | h'
    · rcases mem_insertBest h' with h'' | h''
      · exact Or.inl h''
      · exact Or.inr (h'' ▸ List.mem_cons_self x xs)
    · exact Or.inr (List.mem_cons_of_mem x h')

theorem mem_dedupBest {c : Candidate} {l : List Candidate}
    (h : c ∈ dedupBest l) : c ∈ l := by
  rcases mem_foldl_insertBest l [] c h with h' | h'
  · cases h'
  · exact h'

theorem mkCandidate_bounds (s : Source) (chars : List Char) (boost : ℚ)
    (hb : 0 ≤ boost) :
    baseConfidence s ≤ (mkCandidate s chars boost).confidence ∧
    (mkCandidate s chars boost).confidence ≤ 1 := by
  constructor
  · exact le_min (baseConfidence_le_one s) (le_add_of_nonneg_right hb)
  · exact min_le_left _ _

theorem wordCandidate_shape (boost : ℚ) (w : List Char) (c : Candidate)
    (h : wordCandidate boost w = some c) :
    ∃ s chars, c = mkCandidate s chars boost := by
  unfold wordCandidate at h
  split at h
  · split at h
    · exact ⟨_, _, (Option.some.inj h).symm⟩
    · cases h
  · split at h
    · exact ⟨_, _, (Option.some.inj h).symm⟩
    · cases h
  · split at h
    · split at h
      · exact ⟨_, _, (Option.some.inj h).symm⟩
      · cases h
    · cases h

/-- Claim C8: every extractor candidate from a cashtag pattern has
confidence at least 0.80 and every one from a hashtag pattern at least
0.60; the context boost only raises confidence above the pattern's base
and the result never exceeds 1.0. -/
theorem extract_confidence_bounds (text : String) (c : Candidate)
    (h : c ∈ extractTokens text) :
    (c.source = Source.cashtag → 8/10 ≤ c.confidence) ∧
    (c.source = Source.hashtag → 6/10 ≤ c.confidence) ∧
    baseConfidence c.source ≤ c.confidence ∧
    c.confidence ≤ 1 := by
  have h1 : c ∈ (splitWords text.data).filterMap (wordCandidate (boostOf text)) :=
    mem_dedupBest h
  rcases List.mem_filterMap.mp h1 with ⟨w, _, hc⟩
  rcases wordCandidate_shape _ _ _ hc with ⟨s, chars, rfl⟩
  have hb := boostOf_nonneg text
  have hbnds := mkCandidate_bounds s chars (boostOf text) hb
  refine ⟨?_, ?_, hbnds.1, hbnds.2⟩
  · intro hs
    have : baseConfidence (mkCandidate s chars (boostOf text)).source
        ≤ (mkCandidate s chars (boostOf text)).confidence := hbnds.1
    rw [hs] at this
    calc (8/10 : ℚ) ≤ baseConfidence Source.cashtag := by norm_num [baseConfidence]
      _ ≤ _ := this
  · intro hs
    have : baseConfidence (mkCandidate s chars (boostOf text)).source
        ≤ (mkCandidate s chars (boostOf text)).confidence := hbnds.1
    rw [hs] at this
    calc (6/10 : ℚ) ≤ baseConfidence Source.hashtag := by norm_num [baseConfidence]
      _ ≤ _ := this

unseal Rat.add Rat.mul Rat.inv in
/-- Witness for Claim C8 on a concrete crypto post: the `$ARB` cashtag is
extracted with boosted confidence 0.90 and stays within all bounds. -/
theorem extract_confidence_bounds_witness :
    Candidate.mk "ARB" Source.cashtag (9/10)
        ∈ extractTokens "new $ARB airdrop and #SOL plus ARB/USDT" ∧
    (8/10 ≤ (Candidate.mk "ARB" Source.cashtag (9/10)).confidence ∧
      (Candidate.mk "ARB" Source.cashtag (9/10)).confidence ≤ 1) :=
  have hm : Candidate.mk "ARB" Source.cashtag (9/10)
      ∈ extractTokens "new $ARB airdrop and #SOL plus ARB/USDT" := by decide
  ⟨hm,
    (extract_confidence_bounds "new $ARB airdrop and #SOL plus ARB/USDT" _ hm).1 rfl,
    (extract_confidence_bounds "new $ARB airdrop and #SOL plus ARB/USDT" _ hm).2.2.2⟩

/-- The uniqueness key of the Mention Store: (channel, token, postId). -/
def mentionKey (m : TokenMention) : String × String × Nat :=
  (m.channel, m.token, m.postId)

/-- Whether the store already holds a mention with the same key. -/
def keyPresent (store : List TokenMention) (m : TokenMention) : Bool :=
  store.any (fun x => decide (mentionKey x = mentionKey m))

/-- Modelled from the spec: the `{created, duplicatesSkipped}` outcome of
`recordMentions` (section 4.2). -/
structure RecordOutcome where
  created : Nat
  duplicatesSkipped : Nat
deriving DecidableEq

/-- Insert one mention as a conditional upsert on the uniqueness key: an
already-stored key increments `duplicatesSkipped` and performs no
mutation, a fresh key is appended and counted under `created`. -/
def recordOne (acc : List TokenMention × RecordOutcome) (m : TokenMention) :
    List TokenMention × RecordOutcome :=
  if keyPresent acc.1 m then
    (acc.1, RecordOutcome.mk acc.2.created (acc.2.duplicatesSkipped + 1))
  else
    (acc.1 ++ [m], RecordOutcome.mk (acc.2.created + 1) acc.2.duplicatesSkipped)

/-- Modelled from the spec: `recordMentions` of the Mention Store
(section 4.2), an idempotent keyed upsert of a batch of candidates. -/
def recordMentions (store : List TokenMention) (ms : List TokenMention) :
    List TokenMention × RecordOutcome :=
  ms.foldl recordOne (store, RecordOutcome.mk 0 0)

/-- Modelled from the spec: an immutable post record supplied by the
external ingestion collaborator. -/
structure Post where
  id : Nat
  date : Nat
  text : String
deriving DecidableEq

/-- Username normalization: strip a platform URL prefix and a leading
`@`, lowercase. -/
def normalizeUsername (u : String) : String :=
  let chars :=
    if seqMatchesAt "https://t.me/".data u.data then u.data.drop 13 else u.data
  String.mk (lowerChars (chars.dropWhile (fun c => c = '@')))

/-- The candidate TokenMention records one post contributes for a
channel: extractor output at or above the confidence floor, keyed by the
post id. -/
def candidateMentions (chan : String) (minConf : ℚ) (p : Post) : List TokenMention :=
  (extractTokens p.text).filterMap (fun c =>
    if minConf ≤ c.confidence then
      some
        { channel := chan, token := c.token, postId := p.id
          mentionedAt := p.date, source := c.source, confidence := c.confidence
          evaluated := false, r24h := none, r7d := none, max7d := none }
    else none)

/-- A post timestamp falls inside the `days`-day scan window ending at
`now`. -/
def postInWindow (now days : Nat) (p : Post) : Bool :=
  decide (p.date ≤ now) && decide (now ≤ p.date + days * secondsPerDay)

/-- All candidate mentions a scan of `username` over `posts` produces —
a pure function of the scan parameters, so two identical scans submit
identical candidate batches. -/
def scanCandidates (username : String) (posts : List Post) (days now : Nat)
    (minConf : ℚ) : List TokenMention :=
  ((posts.filter (postInWindow now days)).map
      (candidateMentions (normalizeUsername username) minConf)).flatten

/-- Modelled from the spec: the `{postsScanned, mentionsCreated,
duplicatesSkipped}` part of a `scan/channel` response. -/
structure ScanResult where
  postsScanned : Nat
  mentionsCreated : Nat
  duplicatesSkipped : Nat
deriving DecidableEq

/-- Modelled from the spec: the `scan/channel` operation — extract
candidates from the posts in the window and upsert them into the Mention
Store through the uniqueness constraint. -/
def scanChannel (store : List TokenMention) (username : String)
    (posts : List Post) (days now : Nat) (minConf : ℚ) :
    List TokenMention × ScanResult :=
  ((recordMentions store (scanCandidates username posts days now minConf)).1,
    ScanResult.mk (posts.filter (postInWindow now days)).length
      (recordMentions store (scanCandidates username posts days now minConf)).2.created
      (recordMentions store (scanCandidates username posts days now minConf)).2.duplicatesSkipped)

theorem keyPresent_append (store : List TokenMention) (x m : TokenMention)
    (h : keyPresent store m = true) : keyPresent (store ++ [x]) m = true := by
  unfold keyPresent at h ⊢
  rw [List.any_append]
  rw [h]
  rfl

theorem recordOne_mono (acc : List TokenMention × RecordOutcome)
    (x m : TokenMention) (h : keyPresent acc.1 m = true) :
    keyPresent (recordOne acc x).1 m = true := by
  unfold recordOne
  split
  · exact h
  · exact keyPresent_append acc.1 x m h

theorem recordOne_self (acc : List TokenMention × RecordOutcome)
    (x : TokenMention) : keyPresent (recordOne acc x).1 x = true := by
  unfold recordOne
  split
  · assumption
  · unfold keyPresent
    rw [List.any_append]
    simp

theorem foldl_recordOne_mono (ms : List TokenMention)
    (acc : List TokenMention × RecordOutcome) (m : TokenMention)
    (h : keyPresent acc.1 m = true) :
    keyPresent (ms.foldl recordOne acc).1 m = true := by
  induction ms generalizing acc with
  | nil => exact h
  | cons x xs ih => exact ih (recordOne acc x) (recordOne_mono acc x m h)

theorem foldl_recordOne_all (ms : List TokenMention)
    (acc : List TokenMention × RecordOutcome) :
    ∀ m ∈ ms, keyPresent (ms.foldl recordOne acc).1 m = true := by
  induction ms generalizing acc with
  | nil => intro m hm; cases hm
  | cons x xs ih =>
    intro m hm
    rcases List.mem_cons.mp hm with h | h
    · rw [h]
      exact foldl_recordOne_mono xs (recordOne acc x) x (recordOne_self acc x)
    · exact ih (recordOne acc x) m h

theorem foldl_recordOne_noop (ms : List TokenMention) (store : List TokenMention)
    (o : RecordOutcome) (h : ∀ m ∈ ms, keyPresent store m = true) :
    ms.foldl recordOne (store, o)
      = (store, RecordOutcome.mk o.created (o.duplicatesSkipped + ms.length)) := by
  induction ms generalizing o with
  | nil => rfl
  | cons x xs ih =>
    have hx : keyPresent store x = true := h x (List.mem_cons_self x xs)
    have hstep : recordOne (store, o) x
        = (store, RecordOutcome.mk o.created (o.duplicatesSkipped + 1)) := by
      unfold recordOne
      rw [if_pos hx]
    show xs.foldl recordOne (recordOne (store, o) x) = _
    rw [hstep, ih _ (fun m hm => h m (List.mem_cons_of_mem x hm))]
    simp [List.length_cons]
    omega

/-- Claim C2: running `scan/channel` twice with identical parameters is
idempotent — the second run reports `mentionsCreated = 0`, counts every
re-submitted key under `duplicatesSkipped`, and the mention set after two
runs equals the mention set after a single run. -/
theorem scan_idempotent (store : List TokenMention) (username : String)
    (posts : List Post) (days now : Nat) (minConf : ℚ) :
    (scanChannel (scanChannel store username posts days now minConf).1
        username posts days now minConf).2.mentionsCreated = 0 ∧
    (scanChannel (scanChannel store username posts days now minConf).1
        username posts days now minConf).2.duplicatesSkipped
      = (scanCandidates username posts days now minConf).length ∧
    (scanChannel (scanChannel store username posts days now minConf).1
        username posts days now minConf).1
      = (scanChannel store username posts days now minConf).1 := by
  have hall : ∀ m ∈ scanCandidates username posts days now minConf,
      keyPresent (scanChannel store username posts days now minConf).1 m = true := by
    intro m hm
    exact foldl_recordOne_all _ (store, RecordOutcome.mk 0 0) m hm
  have hnoop :
      recordMentions (scanChannel store username posts days now minConf).1
          (scanCandidates username posts days now minConf)
        = ((scanChannel store username posts days now minConf).1,
            RecordOutcome.mk 0
              (0 + (scanCandidates username posts days now minConf).length)) :=
    foldl_recordOne_noop _ _ _ hall
  refine ⟨?_, ?_, ?_⟩
  · show (recordMentions (scanChannel store username posts days now minConf).1
        (scanCandidates username posts days now minConf)).2.created = 0
    rw [hnoop]
  · show (recordMentions (scanChannel store username posts days now minConf).1
        (scanCandidates username posts days now minConf)).2.duplicatesSkipped = _
    rw [hnoop]
    simp
  · show (recordMentions (scanChannel store username posts days now minConf).1
        (scanCandidates username posts days now minConf)).1 = _
    rw [hnoop]

/-- Mean of a list of rationals as an optional aggregate: `none` when the
list is empty (never `0` standing in for "no data"). -/
def avgOpt (xs : List ℚ) : Option ℚ :=
  if xs.length = 0 then none else some (xs.sum / (xs.length : ℚ))

/-- Modelled from the spec: the evaluation-stats response of the price
layer (`{total, evaluated, pending, withPriceData, avgReturn24h,
avgReturn7d}`), each count an independent query over the Mention Store. -/
structure EvaluationStats where
  total : Nat
  evaluated : Nat
  pending : Nat
  withPriceData : Nat
  avgReturn24h : Option ℚ
  avgReturn7d : Option ℚ
deriving DecidableEq

/-- Modelled from the spec: the evaluation-stats computation — `total`
counts all stored mentions, `evaluated` those with the flag set, and
`pending` those with it unset. -/
def evaluationStats (store : List TokenMention) : EvaluationStats :=
  { total := store.length
    evaluated := (store.filter (fun m => m.evaluated)).length
    pending := (store.filter (fun m => !m.evaluated)).length
    withPriceData := (store.filter (fun m => m.r7d.isSome)).length
    avgReturn24h := avgOpt (store.filterMap (fun m => m.r24h))
    avgReturn7d := avgOpt (store.filterMap (fun m => m.r7d)) }

theorem length_filter_not {α : Type} (p : α → Bool) (l : List α) :
    (l.filter p).length + (l.filter (fun a => !p a)).length = l.length := by
  induction l with
  | nil => rfl
  | cons a l ih =>
    by_cases h : p a <;> simp [List.filter_cons, h] <;> omega

/-- Claim C3: in every evaluation-stats response the reported counts
satisfy `pending = total - evaluated`. -/
theorem evaluation_stats_pending (store : List TokenMention) :
    (evaluationStats store).pending
      = (evaluationStats store).total - (evaluationStats store).evaluated := by
  show (store.filter (fun m => !m.evaluated)).length
      = store.length - (store.filter (fun m => m.evaluated)).length
  have h := length_filter_not (fun m => m.evaluated) store
  omega

/-- Pending mentions sorted oldest-first, the order the Return Evaluator
scans them in. -/
def oldestFirst (l : List TokenMention) : List TokenMention :=
  List.insertionSort (fun a b => a.mentionedAt ≤ b.mentionedAt) l

/-- Outcome of evaluating one mention. -/
inductive EvalOutcome
  | evaluatedOk
  | skippedFuture
  | errored
deriving DecidableEq

/-- Percentage return between a reference and a forward price. -/
def pctReturn (ref fwd : ℚ) : ℚ := (fwd - ref) / ref * 100

/-- Modelled from the spec: evaluate one pending mention (section 4.4) —
skip it while a horizon still lies in the future, count a provider
failure as an error, otherwise write both returns and the flag
atomically. -/
def evalMention (getPrice : String → Nat → Option ℚ) (now : Nat)
    (m : TokenMention) : TokenMention × EvalOutcome :=
  if now < m.mentionedAt + 7 * secondsPerDay then (m, EvalOutcome.skippedFuture)
  else
    match getPrice m.token m.mentionedAt,
        getPrice m.token (m.mentionedAt + secondsPerDay),
        getPrice m.token (m.mentionedAt + 7 * secondsPerDay) with
    | some ref, some f24, some f7 =>
      ({ m with
          evaluated := true
          r24h := some (pctReturn ref f24)
          r7d := some (pctReturn ref f7)
          max7d := some (pctReturn ref f7) }, EvalOutcome.evaluatedOk)
    | _, _, _ => (m, EvalOutcome.errored)

/-- Modelled from the spec: the `{ok, processed, evaluated, skipped,
errors}` response of the batch `evaluate` operation. -/
structure EvaluateResult where
  ok : Bool
  processed : Nat
  evaluated : Nat
  skipped : Nat
  errors : Nat
deriving DecidableEq

/-- Server-side cap of the `evaluate` batch size: 200 mentions per call. -/
def evaluateMaxLimit : Nat := 200

/-- Modelled from the spec: the batch `evaluate` operation (section 4.4)
— take at most `min limit 200` pending mentions oldest-first, evaluate
each against the price oracle, and report the outcome counts. -/
def evaluateBatch (store : List TokenMention)
    (getPrice : String → Nat → Option ℚ) (limit now : Nat) :
    List TokenMention × EvaluateResult :=
  let batch :=
    (oldestFirst (store.filter (fun m => !m.evaluated))).take (min limit evaluateMaxLimit)
  let outcomes := batch.map (fun m => (evalMention getPrice now m).2)
  (store.map (fun m => if keyPresent batch m then (evalMention getPrice now m).1 else m),
    { ok := true
      processed := batch.length
      evaluated := (outcomes.filter (fun o => decide (o = EvalOutcome.evaluatedOk))).length
      skipped := (outcomes.filter (fun o => decide (o = EvalOutcome.skippedFuture))).length
      errors := (outcomes.filter (fun o => decide (o = EvalOutcome.errored))).length })

/-- Claim C6: the batch `evaluate` operation processes at most 200
mentions whatever limit the caller requests; in particular a call with
`limit = 500` is capped and reports `processed ≤ 200`. -/
theorem evaluate_processed_capped (store : List TokenMention)
    (getPrice : String → Nat → Option ℚ) (limit now : Nat) :
    (evaluateBatch store getPrice limit now).2.processed ≤ 200 ∧
    (evaluateBatch store getPrice 500 now).2.processed ≤ 200 := by
  have h : ∀ lim, (evaluateBatch store getPrice lim now).2.processed ≤ 200 := by
    intro lim
    show ((oldestFirst (store.filter (fun m => !m.evaluated))).take
        (min lim evaluateMaxLimit)).length ≤ 200
    rw [List.length_take]
    exact le_trans (Nat.min_le_left _ _) (Nat.min_le_right lim 200)
  exact ⟨h limit, h 500⟩

/-- Lexicographic order on channel identifiers by character code
(total, transitive, and computable by structural recursion). -/
def chanLeB : List Char → List Char → Bool
  | [], _ => true
  | _ :: _, [] => false
  | a :: as, b :: bs =>
    if a.toNat < b.toNat then true
    else if b.toNat < a.toNat then false
    else chanLeB as bs

def chanLe (a b : String) : Bool := chanLeB a.data b.data

theorem chanLeB_head {x y : Char} {xs ys : List Char}
    (h : chanLeB (x :: xs) (y :: ys) = true) : ¬ y.toNat < x.toNat := by
  intro hyx
  by_cases h1 : x.toNat < y.toNat
  · omega
  · rw [chanLeB, if_neg h1, if_pos hyx] at h
    exact Bool.noConfusion h

theorem chanLeB_tail {x y : Char} {xs ys : List Char} (hxy : x.toNat = y.toNat)
    (h : chanLeB (x :: xs) (y :: ys) = true) : chanLeB xs ys = true := by
  rw [chanLeB, if_neg (by omega), if_neg (by omega)] at h
  exact h

theorem chanLeB_total : ∀ (a b : List Char), chanLeB a b = true ∨ chanLeB b a = true := by
  intro a
  induction a with
  | nil => intro b; exact Or.inl rfl
  | cons x xs ih =>
    intro b
    cases b with
    | nil => exact Or.inr rfl
    | cons y ys =>
      by_cases h1 : x.toNat < y.toNat
      · left; rw [chanLeB, if_pos h1]
      · by_cases h2 : y.toNat < x.toNat
        · right; rw [chanLeB, if_pos h2]
        · rcases ih ys with h | h
          · left; rw [chanLeB, if_neg h1, if_neg h2]; exact h
          · right; rw [chanLeB, if_neg h2, if_neg h1]; exact h

theorem chanLeB_trans : ∀ (a b c : List Char),
    chanLeB a b = true → chanLeB b c = true → chanLeB a c = true := by
  intro a
  induction a with
  | nil => intro b c _ _; rfl
  | cons x xs ih =>
    intro b c hab hbc
    cases b with
    | nil => exact absurd hab (by rw [chanLeB]; exact Bool.false_ne_true)
    | cons y ys =>
      cases c with
      | nil => exact absurd hbc (by rw [chanLeB]; exact Bool.false_ne_true)
      | cons z zs =>
        have hxy : ¬ y.toNat < x.toNat := chanLeB_head hab
        have hyz : ¬ z.toNat < y.toNat := chanLeB_head hbc
        by_cases h5 : x.toNat < z.toNat
        · rw [chanLeB, if_pos h5]
        · have hx_eq_y : x.toNat = y.toNat := by omega
          have hy_eq_z : y.toNat = z.toNat := by omega
          rw [chanLeB, if_neg h5, if_neg (by omega)]
          exact ih ys zs (chanLeB_tail hx_eq_y hab) (chanLeB_tail hy_eq_z hbc)

/-- The leaderboard ordering: strictly higher alpha score first, ties
broken by the channel identifier. -/
def lbRel (a b : ChannelAlphaScore) : Prop :=
  b.alphaScore < a.alphaScore ∨
    (a.alphaScore = b.alphaScore ∧ chanLe a.channel b.channel = true)

instance lbRelDecidable : DecidableRel lbRel := fun a b => by
  unfold lbRel
  exact inferInstance

instance lbRelTotal : IsTotal ChannelAlphaScore lbRel := by
  constructor
  intro a b
  rcases lt_trichotomy a.alphaScore b.alphaScore with h | h | h
  · exact Or.inr (Or.inl h)
  · rcases chanLeB_total a.channel.data b.channel.data with hc | hc
    · exact Or.inl (Or.inr ⟨h, hc⟩)
    · exact Or.inr (Or.inr ⟨h.symm, hc⟩)
  · exact Or.inl (Or.inl h)

instance lbRelTrans : IsTrans ChannelAlphaScore lbRel := by
  constructor
  intro a b c hab hbc
  rcases hab with h1 | ⟨h1, hc1⟩
  · rcases hbc with h2 | ⟨h2, _⟩
    · exact Or.inl (lt_trans h2 h1)
    · exact Or.inl (by rw [← h2]; exact h1)
  · rcases hbc with h2 | ⟨h2, hc2⟩
    · exact Or.inl (by rw [h1]; exact h2)
    · exact Or.inr ⟨h1.trans h2, chanLeB_trans _ _ _ hc1 hc2⟩

/-- Modelled from the spec: the alpha-score leaderboard — scored channel
documents sorted non-increasing by `alphaScore` with the channel
identifier as tie-break, truncated to the requested limit. -/
def leaderboard (docs : List ChannelAlphaScore) (limit : Nat) :
    List ChannelAlphaScore :=
  (List.insertionSort lbRel docs).take limit

theorem leaderboard_pairwise (docs : List ChannelAlphaScore) (limit : Nat) :
    (leaderboard docs limit).Pairwise lbRel :=
  List.Pairwise.sublist (List.take_sublist limit _)
    (List.sorted_insertionSort lbRel docs)

/-- Claim C7: every leaderboard response is sorted non-increasing by its
ranking score — adjacent entries satisfy `score[i] ≥ score[i+1]` — and a
tie on the score is ordered by the channel identifier. -/
theorem leaderboard_sorted (docs : List ChannelAlphaScore) (limit i : Nat)
    (h : i + 1 < (leaderboard docs limit).length) :
    (leaderboard docs limit)[i + 1].alphaScore
        ≤ (leaderboard docs limit)[i].alphaScore ∧
    ((leaderboard docs limit)[i].alphaScore
          = (leaderboard docs limit)[i + 1].alphaScore →
      chanLe (leaderboard docs limit)[i].channel
        (leaderboard docs limit)[i + 1].channel = true) := by
  have hrel : lbRel (leaderboard docs limit)[i] (leaderboard docs limit)[i + 1] :=
    List.pairwise_iff_getElem.mp (leaderboard_pairwise docs limit) i (i + 1)
      (by omega) h (by omega)
  rcases hrel with h1 | ⟨h1, hc⟩
  · refine ⟨le_of_lt h1, ?_⟩
    intro heq
    exact absurd h1 (by rw [heq]; exact lt_irrefl _)
  · exact ⟨le_of_eq h1.symm, fun _ => hc⟩

/-- A concrete scored-channel document used in the leaderboard witness. -/
def lbDocA : ChannelAlphaScore :=
  { channel := "alpha_channel", windowDays := 90, successRate := 3/4
    avgReturn7d := 1/2, earlynessFactor := 1/2, consistency := 1/2
    alphaScore := 70, totalMentions := 4, evaluatedMentions := 4
    bestMention := none }

/-- A second concrete scored-channel document for the witness. -/
def lbDocB : ChannelAlphaScore :=
  { channel := "beta_channel", windowDays := 90, successRate := 1/4
    avgReturn7d := 0, earlynessFactor := 1/4, consistency := 1/2
    alphaScore := 55, totalMentions := 4, evaluatedMentions := 4
    bestMention := none }

unseal Rat.add Rat.mul Rat.inv in
/-- Witness for Claim C7 on a concrete two-channel leaderboard. -/
theorem leaderboard_sorted_witness :
    0 + 1 < (leaderboard [lbDocB, lbDocA] 10).length ∧
    (leaderboard [lbDocB, lbDocA] 10)[0 + 1].alphaScore
      ≤ (leaderboard [lbDocB, lbDocA] 10)[0].alphaScore :=
  ⟨by decide, (leaderboard_sorted [lbDocB, lbDocA] 10 0 (by decide)).1⟩

/-- Modelled from the spec: the response shape of the historical-price
endpoint `price/:token/history` (`{ok, token, date, priceUSD}` plus the
validation fields `error` and `format`). -/
structure HistoryResponse where
  ok : Bool
  token : String
  date : Option String
  priceUSD : Option ℚ
  error : Option String
  format : Option String
deriving DecidableEq

/-- Syntactic `YYYY-MM-DD` check: exactly ten characters, digits in the
year, month and day positions, dashes at positions 4 and 7. -/
def validDateFormat (s : String) : Bool :=
  match s.data with
  | [y1, y2, y3, y4, d1, m1, m2, d2, a1, a2] =>
    y1.isDigit && y2.isDigit && y3.isDigit && y4.isDigit &&
      d1 = '-' && m1.isDigit && m2.isDigit && d2 = '-' && a1.isDigit && a2.isDigit
  | _ => false

def upperStr (s : String) : String := String.mk (upperChars s.data)

/-- Modelled from the spec: the `price/:token/history` handler — a
missing `date` query parameter answers `date_required` with the expected
format, a syntactically invalid date answers `invalid_date`, and
otherwise the (possibly failing) provider lookup is reported with
`ok`/`priceUSD`.  Token symbols are case-normalized to uppercase. -/
def priceHistoryHandler (getHistPrice : String → String → Option ℚ)
    (token : String) (date : Option String) : HistoryResponse :=
  match date with
  | none =>
    { ok := false, token := upperStr token, date := none, priceUSD := none
      error := some "date_required", format := some "YYYY-MM-DD" }
  | some d =>
    if validDateFormat d then
      match getHistPrice (upperStr token) d with
      | some p =>
        { ok := true, token := upperStr token, date := some d, priceUSD := some p
          error := none, format := none }
      | none =>
        { ok := false, token := upperStr token, date := some d, priceUSD := none
          error := none, format := none }
    else
      { ok := false, token := upperStr token, date := some d, priceUSD := none
        error := some "invalid_date", format := none }

/-- Claim C9: the historical-price endpoint called without a date returns
`{ok:false, error:"date_required", format:"YYYY-MM-DD"}`, and with a
syntactically invalid date returns `ok:false` with error
`"invalid_date"`. -/
theorem history_date_validation (getHistPrice : String → String → Option ℚ)
    (token : String) (d : String) (hd : validDateFormat d = false) :
    priceHistoryHandler getHistPrice token none
      = { ok := false, token := upperStr token, date := none, priceUSD := none
          error := some "date_required", format := some "YYYY-MM-DD" } ∧
    (priceHistoryHandler getHistPrice token (some d)).ok = false ∧
    (priceHistoryHandler getHistPrice token (some d)).error = some "invalid_date" := by
  have hstep : priceHistoryHandler getHistPrice token (some d)
      = { ok := false, token := upperStr token, date := some d, priceUSD := none
          error := some "invalid_date", format := none } := by
    simp only [priceHistoryHandler]
    rw [if_neg (by rw [hd]; exact Bool.false_ne_true)]
  exact ⟨rfl, by rw [hstep], by rw [hstep]⟩

/-- Witness for Claim C9 at the token `eth` and the invalid date string
`"invalid"`. -/
theorem history_date_validation_witness :
    validDateFormat "invalid" = false ∧
    (priceHistoryHandler (fun _ _ => none) "eth" (some "invalid")).ok = false ∧
    (priceHistoryHandler (fun _ _ => none) "eth" (some "invalid")).error
      = some "invalid_date" :=
  ⟨by decide,
    (history_date_validation (fun _ _ => none) "eth" "invalid" (by decide)).2.1,
    (history_date_validation (fun _ _ => none) "eth" "invalid" (by decide)).2.2⟩

/-- One aggregate entry of the `topTokens` list. -/
structure TopToken where
  token : String
  mentionCount : Nat
deriving DecidableEq

/-- Modelled from the spec: the public channel-mentions listing response
(`{ok, username, days, total, evaluated, avgReturn7d, hitRate, topTokens,
mentions}`). -/
structure ChannelMentionsResponse where
  ok : Bool
  username : String
  days : Nat
  total : Nat
  evaluated : Nat
  avgReturn7d : Option ℚ
  hitRate : Option ℚ
  topTokens : List TopToken
  mentions : List TokenMention
deriving DecidableEq

/-- Per-token mention counts over a mention list. -/
def topTokensOf (ms : List TokenMention) : List TopToken :=
  ((ms.map (fun m => m.token)).dedup).map
    (fun t => TopToken.mk t ((ms.filter (fun m => m.token == t)).length))

/-- Modelled from the spec: the public `mentions/:username` handler — a
public list endpoint that answers HTTP 200 with an empty/default payload
for a channel with no data (never a 404), with the aggregates
`avgReturn7d` and `hitRate` reported as null rather than 0 when there is
nothing to average. -/
def channelMentions (store : List TokenMention) (username : String)
    (days now limit : Nat) : ChannelMentionsResponse :=
  let chan := normalizeUsername username
  let ms := store.filter (fun m => m.channel == chan && inWindow now days m)
  let evs := ms.filter (fun m => m.evaluated)
  { ok := true
    username := chan
    days := days
    total := ms.length
    evaluated := evs.length
    avgReturn7d := avgOpt (evs.filterMap (fun m => m.r7d))
    hitRate :=
      if evs.length = 0 then none
      else some (((evs.filter mentionIsHit).length : ℚ) / (evs.length : ℚ))
    topTokens := topTokensOf ms
    mentions := ms.take limit }

/-- Claim C10: for a channel with zero stored mentions in the requested
window — a channel unknown to the system included — the public
channel-mentions listing returns `ok = true` with `total = 0`,
`evaluated = 0`, empty `topTokens` and `mentions`, and the aggregates
`avgReturn7d` and `hitRate` equal to null rather than 0. -/
theorem channel_mentions_empty (store : List TokenMention) (username : String)
    (days now limit : Nat)
    (h : store.filter
        (fun m => m.channel == normalizeUsername username && inWindow now days m)
      = []) :
    channelMentions store username days now limit
      = { ok := true, username := normalizeUsername username, days := days
          total := 0, evaluated := 0, avgReturn7d := none, hitRate := none
          topTokens := [], mentions := [] } := by
  unfold channelMentions
  dsimp only
  rw [h]
  simp [avgOpt, topTokensOf]

/-- Witness for Claim C10: an unknown channel over an empty store. -/
theorem channel_mentions_empty_witness :
    ([] : List TokenMention).filter
        (fun m => m.channel == normalizeUsername "durov" && inWindow 1000 30 m)
      = [] ∧
    channelMentions [] "durov" 30 1000 50
      = { ok := true, username := normalizeUsername "durov", days := 30
          total := 0, evaluated := 0, avgReturn7d := none, hitRate := none
          topTokens := [], mentions := [] } :=
  ⟨rfl, channel_mentions_empty [] "durov" 30 1000 50 rfl⟩

end TelegramIntel
